import Mathlib

/-!
Verification of the query-intent classifier and orchestration router of the
financial-assistant repository (`src/app_backend.py`).

The Python source is shallowly embedded below.  Strings are Lean `String`s
(lists of characters; the queries of interest are ASCII, and the ASCII
fragments of Python's `str.lower` / `str.strip` / `\s` / `\w` coincide with
the Lean character predicates used here).  Numeric provider fields are
modelled as exact rationals (the repository's float arithmetic carries no
claim-relevant content).  External collaborators (HTTP fetches, the Gemini
language model, the JSON parser applied to the model's free-text reply) are
oracle parameters, exactly the boundary drawn in the specification.
-/

/-- Python `s.lower()` (ASCII fragment, matching `Char.toLower`). -/
def pyLower (s : String) : String := ⟨s.data.map Char.toLower⟩

/-- Python substring containment `pat in hay` on character lists. -/
def strContainsL (pat : List Char) : List Char → Bool
  | [] => pat.isEmpty
  | c :: cs => pat.isPrefixOf (c :: cs) || strContainsL pat cs

/-- Python `pat in hay` for strings. -/
def strContains (hay pat : String) : Bool := strContainsL pat.data hay.data

/-- Python `s.strip()` (whitespace trim on both ends). -/
def pyStrip (s : String) : String :=
  ⟨((s.data.dropWhile Char.isWhitespace).reverse.dropWhile Char.isWhitespace).reverse⟩

/-- `COMPANY_LOOKUP` from `app_backend.py` lines 57-74, in source (insertion)
order, as an association list. -/
def COMPANY_LOOKUP : List (String × String) :=
  [("apple", "AAPL"), ("microsoft", "MSFT"), ("google", "GOOGL"), ("alphabet", "GOOGL"),
   ("amazon", "AMZN"), ("tesla", "TSLA"), ("meta", "META"), ("facebook", "META"),
   ("netflix", "NFLX"), ("nvidia", "NVDA"), ("amd", "AMD"), ("intel", "INTC"),
   ("jpmorgan", "JPM"), ("bank of america", "BAC"), ("wells fargo", "WFC"),
   ("goldman sachs", "GS"), ("morgan stanley", "MS"), ("berkshire hathaway", "BRK.B"),
   ("johnson & johnson", "JNJ"), ("procter & gamble", "PG"), ("coca cola", "KO"),
   ("pepsi", "PEP"), ("walmart", "WMT"), ("disney", "DIS"), ("nike", "NKE"),
   ("mcdonald", "MCD"), ("mcdonalds", "MCD"), ("visa", "V"), ("mastercard", "MA"),
   ("salesforce", "CRM"), ("oracle", "ORCL"), ("cisco", "CSCO"), ("ibm", "IBM"),
   ("ge", "GE"), ("general electric", "GE"), ("ford", "F"), ("general motors", "GM"),
   ("gm", "GM"), ("boeing", "BA"), ("caterpillar", "CAT"), ("home depot", "HD"),
   ("lowes", "LOW"), ("target", "TGT"), ("costco", "COST"), ("starbucks", "SBUX"),
   ("ups", "UPS"), ("fedex", "FDX"), ("exxon", "XOM"), ("chevron", "CVX"),
   ("pfizer", "PFE"), ("moderna", "MRNA"), ("abbvie", "ABBV"), ("zoom", "ZM"),
   ("spotify", "SPOT"), ("uber", "UBER"), ("lyft", "LYFT"), ("airbnb", "ABNB"),
   ("snapchat", "SNAP"), ("paypal", "PYPL"), ("square", "SQ"), ("robinhood", "HOOD")]

/-- Stable insertion of a pair before the first strictly-shorter key:
equal-length keys keep their original relative order. -/
def insertDesc (p : String × String) : List (String × String) → List (String × String)
  | [] => [p]
  | q :: rest => if q.1.length ≤ p.1.length then p :: q :: rest else q :: insertDesc p rest

/-- Stable sort by key length, descending: the model of Python's
`sorted(COMPANY_LOOKUP.keys(), key=len, reverse=True)` (a stable sort),
carrying each key's dictionary value along. -/
def sortByLenDesc : List (String × String) → List (String × String)
  | [] => []
  | p :: rest => insertDesc p (sortByLenDesc rest)

/-- The company table iterated in the order used by `find_ticker_from_text`
(line 92): keys longest first, insertion order on ties. -/
def sortedLookup : List (String × String) := sortByLenDesc COMPANY_LOOKUP

/-- The loop of `find_ticker_from_text` lines 92-94: return the value of the
first key (in `sortedLookup` order) contained in the lower-cased text. -/
def scanCompanies (textLower : String) : List (String × String) → Option String
  | [] => none
  | p :: rest =>
    if strContains textLower p.1 then some p.2 else scanCompanies textLower rest

/-- Python `\w` word character (ASCII fragment: alphanumeric or underscore). -/
def isWordChar (c : Char) : Bool := c.isAlphanum || c == '_'

/-- Maximal runs of word characters, accumulator style (`cur` holds the
current run, reversed). -/
def tokensAux : List Char → List Char → List (List Char)
  | cur, [] => if cur.isEmpty then [] else [cur.reverse]
  | cur, c :: cs =>
    if isWordChar c then tokensAux (c :: cur) cs
    else if cur.isEmpty then tokensAux [] cs else cur.reverse :: tokensAux [] cs

/-- The maximal word-character runs of a text, in order. -/
def wordTokens (l : List Char) : List (List Char) := tokensAux [] l

/-- A token matching `[A-Z]{2,5}` exactly: 2-5 characters, all uppercase
letters.  `re.findall(r'\b[A-Z]{2,5}\b', text)` returns precisely the maximal
word-character runs of this shape, in order: a run longer than 5, or
containing a non-uppercase word character, admits no interior `\b` boundary,
so no sub-segment of it can match. -/
def tickerTok (t : List Char) : Bool :=
  decide (2 ≤ t.length) && decide (t.length ≤ 5) && t.all Char.isUpper

/-- Model of `re.findall(r'\b[A-Z]{2,5}\b', text)` (line 97-98). -/
def tickerTokens (text : String) : List String :=
  ((wordTokens text.data).filter tickerTok).map String.mk

/-- The stop-word set of line 99. -/
def commonWords : List String :=
  ["I", "IS", "IT", "IN", "ON", "TO", "OF", "THE", "AND", "OR", "BUT", "GET",
   "CAN", "HOW", "YOU", "YOUR"]

/-- `FinancialAssistant.find_ticker_from_text` (lines 87-102): first a
longest-first company-name scan over the lower-cased text, then the
uppercase-token heuristic filtered through the stop-word set. -/
def find_ticker_from_text (text : String) : Option String :=
  match scanCompanies (pyLower text) sortedLookup with
  | some t => some t
  | none => ((tickerTokens text).filter (fun m => !(commonWords.contains m))).head?

/-- The two fixed scheme prefixes generated by `https?://`; the `https`
alternative is tried first, as the greedy `s?` does. -/
def matchScheme : List Char → Option (List Char × List Char)
  | 'h' :: 't' :: 't' :: 'p' :: 's' :: ':' :: '/' :: '/' :: rest =>
      some (['h', 't', 't', 'p', 's', ':', '/', '/'], rest)
  | 'h' :: 't' :: 't' :: 'p' :: ':' :: '/' :: '/' :: rest =>
      some (['h', 't', 't', 'p', ':', '/', '/'], rest)
  | _ => none

/-- Non-whitespace: Python `[^\s]` (ASCII fragment). -/
def notWs (c : Char) : Bool := !c.isWhitespace

/-- One attempted match of `https?://[^\s]+` anchored at the head of `l`:
the scheme followed by the maximal (greedy) nonempty run of non-whitespace
characters.  Returns the matched characters and the remainder. -/
def matchUrlAt (l : List Char) : Option (List Char × List Char) :=
  match matchScheme l with
  | none => none
  | some (sch, rest) =>
    let body := rest.takeWhile notWs
    if body.isEmpty then none else some (sch ++ body, rest.dropWhile notWs)

/-- The scan of `re.findall(r'https?://[^\s]+', query)` (lines 381-382):
left to right, non-overlapping, resuming after each match.  `fuel` bounds the
scan; every step consumes at least one character, so the input length is
always sufficient fuel. -/
def findUrlsAux : Nat → List Char → List (List Char)
  | 0, _ => []
  | _ + 1, [] => []
  | fuel + 1, c :: cs =>
    match matchUrlAt (c :: cs) with
    | some (url, rest) => url :: findUrlsAux fuel rest
    | none => findUrlsAux fuel cs

/-- URL extraction of `_fallback_query_analysis` (lines 380-382). -/
def extractUrls (q : String) : List String :=
  (findUrlsAux q.data.length q.data).map String.mk

/-- The crypto-keyword test of line 385:
`any(kw in query_lower for kw in ['bitcoin', 'btc', 'crypto'])`. -/
def cryptoKw (q : String) : Bool :=
  strContains (pyLower q) "bitcoin" || strContains (pyLower q) "btc" ||
    strContains (pyLower q) "crypto"

/-- The analysis dictionary produced by the classifier: the five keys every
branch of `_fallback_query_analysis` populates (the Gemini path is asked for
the same shape). -/
structure Analysis where
  intent : String
  ticker : Option String
  company_name : Option String
  urls : List String
  search_query : Option String
deriving DecidableEq

/-- `FinancialAssistant._fallback_query_analysis` (lines 376-401). -/
def fallback_query_analysis (q : String) : Analysis :=
  let urls := extractUrls q
  if cryptoKw q then
    if urls.isEmpty then ⟨"bitcoin_price", none, some "Bitcoin", [], none⟩
    else ⟨"both", none, some "Bitcoin", urls, some q⟩
  else
    match find_ticker_from_text q with
    | some t =>
      if urls.isEmpty then ⟨"stock_price", some t, none, [], none⟩
      else ⟨"both", some t, none, urls, some q⟩
    | none =>
      if urls.isEmpty then ⟨"unknown", none, none, [], some q⟩
      else ⟨"web_scrape", none, none, urls, some q⟩

/-! ### Facts about the company scan -/

/-- The computed longest-first order of the company table, pinned as an
explicit list (this is exactly what Python's stable
`sorted(keys, key=len, reverse=True)` yields on `COMPANY_LOOKUP`). -/
theorem sortedLookup_eq :
    sortedLookup =
      [("berkshire hathaway", "BRK.B"), ("johnson & johnson", "JNJ"), ("procter & gamble", "PG"),
       ("general electric", "GE"), ("bank of america", "BAC"), ("morgan stanley", "MS"),
       ("general motors", "GM"), ("goldman sachs", "GS"), ("wells fargo", "WFC"),
       ("caterpillar", "CAT"), ("mastercard", "MA"), ("salesforce", "CRM"),
       ("home depot", "HD"), ("microsoft", "MSFT"), ("coca cola", "KO"),
       ("mcdonalds", "MCD"), ("starbucks", "SBUX"), ("robinhood", "HOOD"),
       ("alphabet", "GOOGL"), ("facebook", "META"), ("jpmorgan", "JPM"),
       ("mcdonald", "MCD"), ("snapchat", "SNAP"), ("netflix", "NFLX"),
       ("walmart", "WMT"), ("chevron", "CVX"), ("moderna", "MRNA"),
       ("spotify", "SPOT"), ("google", "GOOGL"), ("amazon", "AMZN"),
       ("nvidia", "NVDA"), ("disney", "DIS"), ("oracle", "ORCL"),
       ("boeing", "BA"), ("target", "TGT"), ("costco", "COST"),
       ("pfizer", "PFE"), ("abbvie", "ABBV"), ("airbnb", "ABNB"),
       ("paypal", "PYPL"), ("square", "SQ"), ("apple", "AAPL"),
       ("tesla", "TSLA"), ("intel", "INTC"), ("pepsi", "PEP"),
       ("cisco", "CSCO"), ("lowes", "LOW"), ("fedex", "FDX"),
       ("exxon", "XOM"), ("meta", "META"), ("nike", "NKE"),
       ("visa", "V"), ("ford", "F"), ("zoom", "ZM"),
       ("uber", "UBER"), ("lyft", "LYFT"), ("amd", "AMD"),
       ("ibm", "IBM"), ("ups", "UPS"), ("ge", "GE"),
       ("gm", "GM")] := by decide

theorem scan_append_none (t : String) (l₁ l₂ : List (String × String))
    (h : ∀ p ∈ l₁, strContains t p.1 = false) :
    scanCompanies t (l₁ ++ l₂) = scanCompanies t l₂ := by
  induction l₁ with
  | nil => rfl
  | cons p rest ih =>
    have hp := h p (by simp)
    simp only [List.cons_append, scanCompanies, hp, Bool.false_eq_true, if_false]
    exact ih fun q hq => h q (by simp [hq])

theorem scanCompanies_mem {t : String} {l : List (String × String)} {v : String}
    (h : scanCompanies t l = some v) :
    ∃ p ∈ l, strContains t p.1 = true ∧ p.2 = v := by
  induction l with
  | nil => simp [scanCompanies] at h
  | cons p rest ih =>
    by_cases hc : strContains t p.1 = true
    · refine ⟨p, by simp, hc, ?_⟩
      simp only [scanCompanies, hc, if_true] at h
      exact Option.some.inj h
    · simp only [scanCompanies, hc, if_false] at h
      obtain ⟨q, hq, hcq, hv⟩ := ih h
      exact ⟨q, by simp [hq], hcq, hv⟩

theorem scanCompanies_isSome {t : String} {l : List (String × String)}
    {p : String × String} (hp : p ∈ l) (hc : strContains t p.1 = true) :
    ∃ v, scanCompanies t l = some v := by
  induction l with
  | nil => cases hp
  | cons q rest ih =>
    by_cases hq : strContains t q.1 = true
    · exact ⟨q.2, by simp [scanCompanies, hq]⟩
    · rcases List.mem_cons.mp hp with rfl | hmem
      · exact absurd hc hq
      · obtain ⟨v, hv⟩ := ih hmem
        exact ⟨v, by simp [scanCompanies, hq, hv]⟩

theorem mem_insertDesc {a p : String × String} {l : List (String × String)} :
    a ∈ insertDesc p l ↔ a = p ∨ a ∈ l := by
  induction l with
  | nil => simp [insertDesc]
  | cons q rest ih =>
    by_cases h : q.1.length ≤ p.1.length
    · simp [insertDesc, h]
    · simp only [insertDesc, h, if_false, List.mem_cons, ih]
      tauto

theorem mem_sortByLenDesc {a : String × String} {l : List (String × String)} :
    a ∈ sortByLenDesc l ↔ a ∈ l := by
  induction l with
  | nil => simp [sortByLenDesc]
  | cons p rest ih => simp [sortByLenDesc, mem_insertDesc, ih]

theorem mem_sortedLookup {a : String × String} :
    a ∈ sortedLookup ↔ a ∈ COMPANY_LOOKUP := mem_sortByLenDesc

/-- Every value in the company table is a nonempty ticker string. -/
theorem lookup_values_ne_empty : ∀ p ∈ COMPANY_LOOKUP, p.2 ≠ "" := by decide

/-- A ticker returned by `find_ticker_from_text` is never the empty string:
company-table values are nonempty, and the token heuristic only returns
tokens of length 2-5. -/
theorem find_ticker_ne_empty {text s : String}
    (h : find_ticker_from_text text = some s) : s ≠ "" := by
  unfold find_ticker_from_text at h
  cases hscan : scanCompanies (pyLower text) sortedLookup with
  | some v =>
    rw [hscan] at h
    obtain ⟨p, hp, _, hv⟩ := scanCompanies_mem hscan
    cases h
    exact hv ▸ lookup_values_ne_empty p (mem_sortedLookup.mp hp)
  | none =>
    rw [hscan] at h
    have hmem : s ∈ (tickerTokens text).filter (fun m => !(commonWords.contains m)) := by
      cases hl : (tickerTokens text).filter (fun m => !(commonWords.contains m)) with
      | nil => rw [hl] at h; cases h
      | cons x xs =>
        rw [hl] at h
        cases h
        simp [hl]
    have hmem2 : s ∈ tickerTokens text := (List.mem_filter.mp hmem).1
    obtain ⟨tok, htok, hs⟩ := List.mem_map.mp hmem2
    have h2 : 2 ≤ tok.length := by
      have := (List.mem_filter.mp htok).2
      simp only [tickerTok, Bool.and_eq_true, decide_eq_true_eq] at this
      exact this.1.1
    intro hcon
    rw [← hs] at hcon
    have : tok = [] := congrArg String.data hcon
    simp [this] at h2

/-! ### Facts about URL extraction -/

/-- A full match of the URL pattern `https?://[^\s]+`: a scheme prefix
followed by a nonempty whitespace-free remainder. -/
def urlPatternL (u : List Char) : Bool :=
  match matchScheme u with
  | none => false
  | some (_, rest) => !rest.isEmpty && rest.all notWs

/-- `urlPatternL` on strings. -/
def urlPattern (u : String) : Bool := urlPatternL u.data

theorem matchScheme_split {l sch rest : List Char}
    (h : matchScheme l = some (sch, rest)) :
    l = sch ++ rest ∧ sch ≠ [] ∧
      (sch = ['h', 't', 't', 'p', 's', ':', '/', '/'] ∨
       sch = ['h', 't', 't', 'p', ':', '/', '/']) := by
  unfold matchScheme at h
  split at h
  · simp only [Option.some.injEq, Prod.mk.injEq] at h
    obtain ⟨h1, h2⟩ := h
    subst h1
    subst h2
    simp
  · simp only [Option.some.injEq, Prod.mk.injEq] at h
    obtain ⟨h1, h2⟩ := h
    subst h1
    subst h2
    simp
  · cases h

theorem matchScheme_https (body : List Char) :
    matchScheme (['h', 't', 't', 'p', 's', ':', '/', '/'] ++ body) =
      some (['h', 't', 't', 'p', 's', ':', '/', '/'], body) := rfl

theorem matchScheme_http (body : List Char) :
    matchScheme (['h', 't', 't', 'p', ':', '/', '/'] ++ body) =
      some (['h', 't', 't', 'p', ':', '/', '/'], body) := rfl

theorem matchUrlAt_split {l u r : List Char} (h : matchUrlAt l = some (u, r)) :
    l = u ++ r ∧ u ≠ [] ∧ urlPatternL u = true ∧ r.length < l.length := by
  unfold matchUrlAt at h
  cases hm : matchScheme l with
  | none => rw [hm] at h; cases h
  | some p =>
    obtain ⟨sch, rest⟩ := p
    rw [hm] at h
    simp only at h
    split at h
    · cases h
    · rename_i hbody
      have hinj := Prod.mk.injEq .. ▸ Option.some.inj h
      obtain ⟨hu, hr⟩ := hinj
      obtain ⟨hl, hsch, hform⟩ := matchScheme_split hm
      have hsplit : rest.takeWhile notWs ++ rest.dropWhile notWs = rest :=
        List.takeWhile_append_dropWhile notWs rest
      have hlur : l = u ++ r := by
        rw [hl, ← hsplit, ← hu, ← hr, List.append_assoc]
      have hune : u ≠ [] := by
        rw [← hu]
        intro hcon
        exact hsch (List.append_eq_nil.mp hcon).1
      refine ⟨hlur, hune, ?_, ?_⟩
      · rw [← hu]
        have hms : matchScheme (sch ++ rest.takeWhile notWs) =
            some (sch, rest.takeWhile notWs) := by
          rcases hform with rfl | rfl
          · exact matchScheme_https _
          · exact matchScheme_http _
        unfold urlPatternL
        rw [hms]
        simp only [Bool.and_eq_true, Bool.not_eq_true']
        constructor
        · simpa using hbody
        · exact List.all_eq_true.mpr fun c hc => List.mem_takeWhile_imp hc
      · rw [hlur, List.length_append]
        have : 0 < u.length := List.length_pos.mpr hune
        omega

/-- Separator-interleaved concatenation: `joinG [s0, ..., sn] [u1, ..., un]`
is `s0 ++ u1 ++ s1 ++ ... ++ un ++ sn`. -/
def joinG : List (List Char) → List (List Char) → List Char
  | [], _ => []
  | s :: _, [] => s
  | s :: ss, u :: us => s ++ u ++ joinG ss us

theorem joinG_cons_head (c : Char) (s : List Char) (ss us : List (List Char)) :
    joinG ((c :: s) :: ss) us = c :: joinG (s :: ss) us := by
  cases us <;> simp [joinG]

/-- Every URL list returned by the findall scan decomposes its input: the
matches occur in the input, in order, as disjoint substrings. -/
theorem findUrlsAux_decomp :
    ∀ (fuel : Nat) (l : List Char), l.length ≤ fuel →
      ∃ seps : List (List Char),
        seps.length = (findUrlsAux fuel l).length + 1 ∧
        joinG seps (findUrlsAux fuel l) = l := by
  intro fuel
  induction fuel with
  | zero =>
    intro l hl
    have : l = [] := List.eq_nil_of_length_eq_zero (Nat.le_zero.mp hl)
    subst this
    exact ⟨[[]], by simp [findUrlsAux, joinG]⟩
  | succ fuel ih =>
    intro l hl
    cases l with
    | nil => exact ⟨[[]], by simp [findUrlsAux, joinG]⟩
    | cons c cs =>
      cases hm : matchUrlAt (c :: cs) with
      | none =>
        have hcs : cs.length ≤ fuel := by simp at hl; omega
        obtain ⟨seps, hlen, hjoin⟩ := ih cs hcs
        cases seps with
        | nil => simp at hlen
        | cons s ss =>
          refine ⟨(c :: s) :: ss, ?_, ?_⟩
          · simpa [findUrlsAux, hm] using hlen
          · simp only [findUrlsAux, hm]
            rw [joinG_cons_head, hjoin]
      | some p =>
        obtain ⟨url, rest⟩ := p
        obtain ⟨hsplit, hune, _, hlt⟩ := matchUrlAt_split hm
        have hrest : rest.length ≤ fuel := by
          have := hlt
          simp only [List.length_cons] at this hl
          omega
        obtain ⟨seps, hlen, hjoin⟩ := ih rest hrest
        refine ⟨[] :: seps, ?_, ?_⟩
        · simpa [findUrlsAux, hm] using hlen
        · simp only [findUrlsAux, hm]
          cases seps with
          | nil => simp at hlen
          | cons s ss =>
            show [] ++ url ++ joinG (s :: ss) (findUrlsAux fuel rest) = c :: cs
            rw [List.nil_append, hjoin, ← hsplit]

/-- Every match returned by the findall scan satisfies the URL pattern. -/
theorem findUrlsAux_wellformed :
    ∀ (fuel : Nat) (l : List Char), ∀ u ∈ findUrlsAux fuel l,
      urlPatternL u = true := by
  intro fuel
  induction fuel with
  | zero => intro l u hu; simp [findUrlsAux] at hu
  | succ fuel ih =>
    intro l u hu
    cases l with
    | nil => simp [findUrlsAux] at hu
    | cons c cs =>
      cases hm : matchUrlAt (c :: cs) with
      | none =>
        rw [findUrlsAux, hm] at hu
        exact ih cs u hu
      | some p =>
        obtain ⟨url, rest⟩ := p
        rw [findUrlsAux, hm] at hu
        rcases List.mem_cons.mp hu with rfl | hmem
        · exact (matchUrlAt_split hm).2.2.1
        · exact ih rest u hmem

/-- Every URL produced by `extractUrls` matches the URL pattern. -/
theorem extractUrls_wellformed (q : String) :
    ∀ u ∈ extractUrls q, urlPattern u = true := by
  intro u hu
  obtain ⟨l, hl, rfl⟩ := List.mem_map.mp hu
  exact findUrlsAux_wellformed _ _ l hl

/-! ### The language-model path of the classifier -/

/-- Fence stripping of `analyze_query_with_gemini` lines 361-364: take the
text after the first \x60\x60\x60json (or plain \x60\x60\x60) fence, cut it
at the next fence, and strip whitespace; a reply without fences is parsed
as-is.  `String.splitOn` has Python `str.split` semantics (leftmost,
non-overlapping), and the guarded index 1 always exists when the fence
occurs, so the `getD` default is never used. -/
def stripFences (t : String) : String :=
  if strContains t "```json" then
    pyStrip ((((t.splitOn "```json").getD 1 "").splitOn "```").headD "")
  else if strContains t "```" then
    pyStrip ((((t.splitOn "```").getD 1 "").splitOn "```").headD "")
  else t

/-- The five intent tags the prompt requests (line 334). -/
def validVariant (s : String) : Bool :=
  ["stock_price", "bitcoin_price", "web_scrape", "both", "unknown"].contains s

/-- `FinancialAssistant.analyze_query_with_gemini` (lines 313-374).
Collaborator boundary: `llm` is the outcome of the `genai` call
(`.error` = any exception raised while configuring or invoking the model,
`.ok` = the reply's raw text `response.text`); `jparse` is `json.loads`
composed with reading the analysis dictionary (`none` = a `JSONDecodeError`,
which the same `except` clause catches).  An empty `apiKey` models the
missing-credential check of lines 317-320 (Python falsiness of `""`). -/
def analyze_query_with_gemini (q : String) (apiKey : String)
    (llm : Except String String) (jparse : String → Option Analysis) : Analysis :=
  if apiKey = "" then fallback_query_analysis q
  else
    match llm with
    | .error _ => fallback_query_analysis q
    | .ok t =>
      match jparse (stripFences (pyStrip t)) with
      | none => fallback_query_analysis q
      | some a => a

/-! ### Routing (`process_query`, lines 403-455) -/

/-- The `meta` block of the Yahoo chart reply, the fields lines 124-127 and
164 read (each `.get` default is modelled by `Option`). -/
structure ChartMeta where
  regularMarketPrice : Option ℚ
  previousClose : Option ℚ
  currency : Option String
deriving DecidableEq

/-- The quote-API fields lines 140-143 read. -/
structure QuoteInfo where
  longName : Option String
  shortName : Option String
  marketCap : Option ℚ
  regularMarketDayHigh : Option ℚ
  regularMarketDayLow : Option ℚ
deriving DecidableEq

/-- The stock payload assembled at lines 155-167. -/
structure StockPayload where
  symbol : String
  name : String
  current_price : ℚ
  previous_close : ℚ
  change : ℚ
  change_percent : ℚ
  high : ℚ
  low : ℚ
  currency : String
  market_cap : Option ℚ
  timestamp : String
deriving DecidableEq

/-- The Coinlore ticker fields lines 191-198 read (provider values arrive as
strings; `float(...)` conversion and the truthiness test on `volume24` /
`market_cap_usd` are collapsed into `Option ℚ` presence). -/
structure BtcInfo where
  name : Option String
  symbol : Option String
  price_usd : Option ℚ
  percent_change_24h : Option ℚ
  percent_change_1h : Option ℚ
  percent_change_7d : Option ℚ
  volume24 : Option ℚ
  market_cap_usd : Option ℚ
deriving DecidableEq

/-- The Bitcoin payload assembled at lines 190-200. -/
structure BtcPayload where
  name : String
  symbol : String
  current_price : ℚ
  change_24h : ℚ
  change_1h : ℚ
  change_7d : ℚ
  volume_24h : Option ℚ
  market_cap : Option ℚ
  timestamp : String
deriving DecidableEq

/-- The three dictionary shapes `scrape_url` returns (lines 289-311): an
error slot, a not-relevant notice, or extracted data. -/
inductive ScrapeResult where
  | err (reason : String) (url : String)
  | irrelevant (message : String) (url : String)
  | ok (summary : String) (key_points : List String) (url : String) (query : String)
deriving DecidableEq

/-- One collaborator invocation performed by `process_query`, in program
order. -/
inductive CallEvent where
  | stockCall (ticker : String)
  | btcCall
  | scrapeCall (url : String) (search_query : String)
deriving DecidableEq

/-- The external collaborators `process_query` can reach, plus the wall
clock (`now` is what `datetime.now().strftime(...)` yields during the
request).  `chart`/`quote` are the two Yahoo endpoints of
`fetch_stock_price` (`.error` = exception, non-2xx, or missing-key reply),
`btcResp` the Coinlore reply, and `scrape` the total outcome of
`scrape_url`, which catches every exception into an error slot. -/
structure Oracles where
  chart : String → Except String ChartMeta
  quote : String → Except String QuoteInfo
  btcResp : Except String BtcInfo
  scrape : String → String → ScrapeResult
  now : String

/-- Python `a or b` for an optional string `a` (empty string is falsy). -/
def pyOrStr (a : Option String) (b : String) : String :=
  match a with
  | some s => if s = "" then b else s
  | none => b

/-- Round-half-to-even on exact rationals, the semantics of Python's
`round` (binary-float artifacts are out of the model's scope). -/
def roundHalfEven (x : ℚ) : ℤ :=
  let f := Rat.floor x
  let r := x - f
  if r < 1 / 2 then f
  else if 1 / 2 < r then f + 1
  else if f % 2 = 0 then f else f + 1

/-- Python `round(x, 2)`. -/
def pyRound2 (x : ℚ) : ℚ := (roundHalfEven (x * 100) : ℚ) / 100

/-- `FinancialAssistant.fetch_stock_price` (lines 104-171): the arithmetic
and defaulting applied to the two Yahoo replies.  Missing chart data and
exceptions both surface as the error dictionary (`.error`); the quote call's
own `try/except` and missing-key branch collapse to the `.error` case of
`o.quote`, both yielding the same defaults. -/
def fetch_stock_price (o : Oracles) (ticker : String) : Except String StockPayload :=
  match o.chart ticker with
  | .error e => .error e
  | .ok meta =>
    let current_price := meta.regularMarketPrice.getD 0
    let previous_close := meta.previousClose.getD current_price
    let change := current_price - previous_close
    let change_percent := if previous_close ≠ 0 then change / previous_close * 100 else 0
    let qr := o.quote ticker
    let company_name :=
      match qr with
      | .ok qi => pyOrStr qi.longName (qi.shortName.getD ticker)
      | .error _ => ticker
    let market_cap := match qr with | .ok qi => qi.marketCap | .error _ => none
    let high :=
      match qr with
      | .ok qi => qi.regularMarketDayHigh.getD current_price
      | .error _ => current_price
    let low :=
      match qr with
      | .ok qi => qi.regularMarketDayLow.getD current_price
      | .error _ => current_price
    .ok { symbol := ticker, name := company_name,
          current_price := pyRound2 current_price,
          previous_close := pyRound2 previous_close,
          change := pyRound2 change, change_percent := pyRound2 change_percent,
          high := pyRound2 high, low := pyRound2 low,
          currency := meta.currency.getD "USD",
          market_cap := market_cap, timestamp := o.now }

/-- `FinancialAssistant.fetch_bitcoin_price` (lines 173-204). -/
def fetch_bitcoin_price (o : Oracles) : Except String BtcPayload :=
  match o.btcResp with
  | .error e => .error e
  | .ok info =>
    .ok { name := info.name.getD "Bitcoin", symbol := info.symbol.getD "BTC",
          current_price := info.price_usd.getD 0,
          change_24h := info.percent_change_24h.getD 0,
          change_1h := info.percent_change_1h.getD 0,
          change_7d := info.percent_change_7d.getD 0,
          volume_24h := info.volume24, market_cap := info.market_cap_usd,
          timestamp := o.now }

/-- The aggregated per-query record built at lines 410-416: every slot
starts out `none` and is filled only by the matching intent branch. -/
structure AggregatedResult where
  query : String
  analysis : Analysis
  stock_data : Option (Except String StockPayload)
  bitcoin_data : Option (Except String BtcPayload)
  scraped_data : Option (List ScrapeResult)

/-- The freshly initialised result record (lines 410-416). -/
def baseResult (q : String) (a : Analysis) : AggregatedResult :=
  ⟨q, a, none, none, none⟩

/-- The scraping block shared by the `web_scrape` and `both` branches
(lines 429-436 and 446-453): `analysis.get("urls", [])`,
`analysis.get("search_query", query)`, then one `scrape_url` call per URL,
sequentially, in input order, appending each outcome.  An empty URL list
leaves the slot `None`. -/
def scrapePart (q : String) (a : Analysis) (o : Oracles)
    (acc : AggregatedResult) (evs : List CallEvent) :
    AggregatedResult × List CallEvent :=
  if a.urls.isEmpty then (acc, evs)
  else
    ({ acc with scraped_data := some (a.urls.map fun u => o.scrape u (a.search_query.getD q)) },
     evs ++ a.urls.map fun u => CallEvent.scrapeCall u (a.search_query.getD q))

/-- Lines 443-444: the `elif "bitcoin" in query.lower()` test of the `both`
branch. -/
def bitcoinCheck (q : String) (a : Analysis) (o : Oracles) :
    AggregatedResult × List CallEvent :=
  if strContains (pyLower q) "bitcoin" then
    ({ baseResult q a with bitcoin_data := some (fetch_bitcoin_price o) },
     [CallEvent.btcCall])
  else (baseResult q a, [])

/-- The price part of the `both` branch, lines 438-444: `if ticker: fetch
stock; elif "bitcoin" in query.lower(): fetch bitcoin`.  A `None` or empty
ticker is falsy in Python. -/
def priceBranch (q : String) (a : Analysis) (o : Oracles) :
    AggregatedResult × List CallEvent :=
  match a.ticker with
  | some t =>
    if t = "" then bitcoinCheck q a o
    else
      ({ baseResult q a with stock_data := some (fetch_stock_price o t) },
       [CallEvent.stockCall t])
  | none => bitcoinCheck q a o

/-- The intent dispatch of `process_query` (lines 418-455), given an
already-classified analysis.  Alongside the aggregated record it returns the
list of collaborator invocations, in program order. -/
def route (q : String) (a : Analysis) (o : Oracles) :
    AggregatedResult × List CallEvent :=
  if a.intent = "stock_price" then
    match a.ticker with
    | some t =>
      if t = "" then (baseResult q a, [])
      else
        ({ baseResult q a with stock_data := some (fetch_stock_price o t) },
         [CallEvent.stockCall t])
    | none => (baseResult q a, [])
  else if a.intent = "bitcoin_price" then
    ({ baseResult q a with bitcoin_data := some (fetch_bitcoin_price o) },
     [CallEvent.btcCall])
  else if a.intent = "web_scrape" then
    scrapePart q a o (baseResult q a) []
  else if a.intent = "both" then
    let pr := priceBranch q a o
    scrapePart q a o pr.1 pr.2
  else (baseResult q a, [])

/-- `FinancialAssistant.process_query` (lines 403-455): classify, then
dispatch. -/
def process_query (q : String) (apiKey : String) (llm : Except String String)
    (jparse : String → Option Analysis) (o : Oracles) :
    AggregatedResult × List CallEvent :=
  route q (analyze_query_with_gemini q apiKey llm jparse) o

/-! ### The data-model invariants of §3 of the specification -/

/-- A populated price target on the stock side: a non-`None`, nonempty
ticker. -/
def tickerPopulated (a : Analysis) : Bool :=
  match a.ticker with
  | some t => !(t == "")
  | none => false

/-- A populated price target on the crypto side (in the dictionary encoding
the crypto branch is marked by `company_name = "Bitcoin"`). -/
def assetPopulated (a : Analysis) : Bool := a.company_name == some "Bitcoin"

/-- The Intent invariants of §3: every intent except `unknown` carries an
actionable parameter; a combined intent never has both price targets; a
`web_scrape` intent's URLs all match the URL pattern. -/
def intentInvariant (a : Analysis) : Bool :=
  (a.intent == "unknown" || tickerPopulated a || assetPopulated a ||
    !a.urls.isEmpty) &&
  (!(a.intent == "both") || !(tickerPopulated a && assetPopulated a)) &&
  (!(a.intent == "web_scrape") || (a.urls.all urlPattern && !a.urls.isEmpty))

/-! ### Mock collaborators used by the concrete instances -/

/-- A deterministic mock collaborator bundle. -/
def mockOracles : Oracles :=
  { chart := fun _ => .error "offline",
    quote := fun _ => .error "offline",
    btcResp := .ok ⟨some "Bitcoin", some "BTC", some 100, some 1, some 0,
                    some 2, none, none⟩,
    scrape := fun u sq => .ok "summary" ["point"] u sq,
    now := "2026-01-01 00:00:00" }

/-- A mock whose page-extraction collaborator fails on `u1` and succeeds on
`u2`. -/
def mockScrapeFail : Oracles :=
  { mockOracles with
    scrape := fun u sq =>
      if u = "u1" then .err "boom" u else .ok "summary" [] u sq }

/-! ### Claims -/

/-- C2: the fallback classifier follows the fixed priority order on every
query: crypto keywords first (CryptoPrice, or Combined with the crypto
branch when URLs are present); otherwise a resolved ticker yields StockPrice,
or Combined with the stock branch and the full query text as search phrase
when URLs are present; otherwise URLs alone yield WebScrape with those URLs
and the full query as search phrase; otherwise Unknown. -/
theorem C2_fallback_priority (q : String) :
    (cryptoKw q = true → extractUrls q ≠ [] →
      fallback_query_analysis q =
        ⟨"both", none, some "Bitcoin", extractUrls q, some q⟩) ∧
    (cryptoKw q = true → extractUrls q = [] →
      fallback_query_analysis q =
        ⟨"bitcoin_price", none, some "Bitcoin", [], none⟩) ∧
    (∀ t, cryptoKw q = false → find_ticker_from_text q = some t →
      extractUrls q ≠ [] →
      fallback_query_analysis q = ⟨"both", some t, none, extractUrls q, some q⟩) ∧
    (∀ t, cryptoKw q = false → find_ticker_from_text q = some t →
      extractUrls q = [] →
      fallback_query_analysis q = ⟨"stock_price", some t, none, [], none⟩) ∧
    (cryptoKw q = false → find_ticker_from_text q = none → extractUrls q ≠ [] →
      fallback_query_analysis q =
        ⟨"web_scrape", none, none, extractUrls q, some q⟩) ∧
    (cryptoKw q = false → find_ticker_from_text q = none → extractUrls q = [] →
      fallback_query_analysis q = ⟨"unknown", none, none, [], some q⟩) := by
  refine ⟨?_, ?_, ?_, ?_, ?_, ?_⟩
  · intro hc hu
    cases hue : extractUrls q with
    | nil => exact absurd hue hu
    | cons x xs => simp [fallback_query_analysis, hc, hue]
  · intro hc hu
    simp [fallback_query_analysis, hc, hu]
  · intro t hc ht hu
    cases hue : extractUrls q with
    | nil => exact absurd hue hu
    | cons x xs => simp [fallback_query_analysis, hc, ht, hue]
  · intro t hc ht hu
    simp [fallback_query_analysis, hc, ht, hu]
  · intro hc ht hu
    cases hue : extractUrls q with
    | nil => exact absurd hue hu
    | cons x xs => simp [fallback_query_analysis, hc, ht, hue]
  · intro hc ht hu
    simp [fallback_query_analysis, hc, ht, hu]

/-- C2 witness: a concrete query with a URL, no crypto keyword and no
resolvable ticker lands in the WebScrape case with the full query as search
phrase. -/
theorem C2_fallback_priority_witness :
    fallback_query_analysis "summarize https://ex.com/a" =
      ⟨"web_scrape", none, none, ["https://ex.com/a"],
       some "summarize https://ex.com/a"⟩ := by
  have h := (C2_fallback_priority "summarize https://ex.com/a").2.2.2.2.1
    (by decide) (by decide) (by decide)
  rw [h]
  decide

/-- C4 (amended): for all queries containing a company name present in the
lookup table, no URL, and no crypto keyword, the fallback classifier returns
StockPrice whose ticker is the mapped ticker of a company name contained in
the query; in particular the Apple example resolves to AAPL. -/
theorem C4_company_lookup :
    (∀ q : String, extractUrls q = [] → cryptoKw q = false →
      (∃ p ∈ COMPANY_LOOKUP, strContains (pyLower q) p.1 = true) →
      ∃ p ∈ COMPANY_LOOKUP, strContains (pyLower q) p.1 = true ∧
        fallback_query_analysis q = ⟨"stock_price", some p.2, none, [], none⟩) ∧
    fallback_query_analysis "What is Apple stock price?" =
      ⟨"stock_price", some "AAPL", none, [], none⟩ := by
  constructor
  · intro q hurl hck ⟨p, hp, hc⟩
    obtain ⟨v, hv⟩ :=
      scanCompanies_isSome (t := pyLower q) (mem_sortedLookup.mpr hp) hc
    obtain ⟨p', hp', hc', hv'⟩ := scanCompanies_mem hv
    have hft : find_ticker_from_text q = some v := by
      unfold find_ticker_from_text
      rw [hv]
    refine ⟨p', mem_sortedLookup.mp hp', hc', ?_⟩
    rw [hv']
    simp [fallback_query_analysis, hck, hft, hurl]
  · decide

/-- C4 witness: the general statement applied to the Apple query. -/
theorem C4_company_lookup_witness :
    ∃ p ∈ COMPANY_LOOKUP,
      strContains (pyLower "What is Apple stock price?") p.1 = true ∧
      fallback_query_analysis "What is Apple stock price?" =
        ⟨"stock_price", some p.2, none, [], none⟩ :=
  C4_company_lookup.1 "What is Apple stock price?" (by decide) (by decide)
    ⟨("apple", "AAPL"), by decide, by decide⟩

/-- C4 counterexample: the query "apple vs btc" contains the lookup name
"apple" and no URL, yet the fallback classifier returns the bitcoin intent,
not StockPrice: the crypto-keyword check runs first. -/
theorem C4_company_lookup_cex :
    ("apple", "AAPL") ∈ COMPANY_LOOKUP ∧
    strContains (pyLower "apple vs btc") "apple" = true ∧
    extractUrls "apple vs btc" = [] ∧
    fallback_query_analysis "apple vs btc" =
      ⟨"bitcoin_price", none, some "Bitcoin", [], none⟩ := by decide

/-- C5: the company scan iterates keys longest-first, so any text containing
"bank of america" whose other matching keys are all shorter resolves to BAC,
never to the ticker of a shorter accidental match. -/
theorem C5_longest_first (text : String)
    (hbac : strContains (pyLower text) "bank of america" = true)
    (hshort : ∀ p ∈ COMPANY_LOOKUP, strContains (pyLower text) p.1 = true →
      p.1 = "bank of america" ∨ p.1.length < 15) :
    find_ticker_from_text text = some "BAC" := by
  have hfacts : ∀ p ∈ sortedLookup.take 4,
      p ∈ COMPANY_LOOKUP ∧ 15 ≤ p.1.length ∧ p.1 ≠ "bank of america" := by decide
  have hpre : ∀ p ∈ sortedLookup.take 4,
      strContains (pyLower text) p.1 = false := by
    intro p hp
    obtain ⟨hmem, hlen, hne⟩ := hfacts p hp
    cases hc : strContains (pyLower text) p.1 with
    | false => rfl
    | true =>
      rcases hshort p hmem hc with h | h
      · exact absurd h hne
      · exact absurd h (Nat.not_lt.mpr hlen)
  have hsplit : sortedLookup =
      sortedLookup.take 4 ++ ("bank of america", "BAC") :: sortedLookup.drop 5 := by
    decide
  have hscan : scanCompanies (pyLower text) sortedLookup = some "BAC" := by
    rw [hsplit, scan_append_none _ _ _ hpre]
    simp [scanCompanies, hbac]
  unfold find_ticker_from_text
  rw [hscan]

/-- C5 witness: a text containing both "bank of america" and the shorter
colliding key "ge" resolves to BAC. -/
theorem C5_longest_first_witness :
    strContains (pyLower "bank of america and ge") "ge" = true ∧
    find_ticker_from_text "bank of america and ge" = some "BAC" :=
  ⟨by decide, C5_longest_first "bank of america and ge" (by decide) (by decide)⟩

/-- C10: company matching is raw substring containment with no word-boundary
check: any text whose lower-casing contains the key "ge" (for instance
inside the word "get"), with no longer key matching, resolves to ticker GE,
and (with no crypto keyword and no URL) the fallback classifier returns the
stock-price intent rather than unknown. -/
theorem C10_substring_no_boundary (text : String)
    (hge : strContains (pyLower text) "ge" = true)
    (hlong : ∀ p ∈ COMPANY_LOOKUP, 3 ≤ p.1.length →
      strContains (pyLower text) p.1 = false)
    (hck : cryptoKw text = false) (hurl : extractUrls text = []) :
    find_ticker_from_text text = some "GE" ∧
    fallback_query_analysis text = ⟨"stock_price", some "GE", none, [], none⟩ := by
  have hfacts : ∀ p ∈ sortedLookup.take 59,
      p ∈ COMPANY_LOOKUP ∧ 3 ≤ p.1.length := by decide
  have hpre : ∀ p ∈ sortedLookup.take 59,
      strContains (pyLower text) p.1 = false := by
    intro p hp
    obtain ⟨hmem, hlen⟩ := hfacts p hp
    exact hlong p hmem hlen
  have hsplit : sortedLookup =
      sortedLookup.take 59 ++ ("ge", "GE") :: sortedLookup.drop 60 := by decide
  have hscan : scanCompanies (pyLower text) sortedLookup = some "GE" := by
    rw [hsplit, scan_append_none _ _ _ hpre]
    simp [scanCompanies, hge]
  have hft : find_ticker_from_text text = some "GE" := by
    unfold find_ticker_from_text
    rw [hscan]
  exact ⟨hft, by simp [fallback_query_analysis, hck, hft, hurl]⟩

/-- C10 witness: "please get it done" mentions no company, yet the "ge"
inside "get" makes the fallback classifier return a stock-price intent for
General Electric. -/
theorem C10_substring_no_boundary_witness :
    strContains (pyLower "please get it done") "ge" = true ∧
    fallback_query_analysis "please get it done" =
      ⟨"stock_price", some "GE", none, [], none⟩ :=
  ⟨by decide,
   (C10_substring_no_boundary "please get it done" (by decide) (by decide)
     (by decide) (by decide)).2⟩

/-- The crypto branch of the fallback classifier when URLs are present. -/
theorem fallback_crypto_both {q : String} (hck : cryptoKw q = true)
    (hurl : extractUrls q ≠ []) :
    fallback_query_analysis q =
      ⟨"both", none, some "Bitcoin", extractUrls q, some q⟩ := by
  cases hue : extractUrls q with
  | nil => exact absurd hue hurl
  | cons x xs => simp [fallback_query_analysis, hck, hue]

/-- C1 (amended): for a query the fallback classifier turns into a Combined
intent via a crypto keyword, routing resolves the price branch as in the
single-target CryptoPrice case (one crypto fetch, stored in the crypto slot,
before the per-URL scraping sequence) precisely when the lower-cased query
contains the keyword "bitcoin"; when the intent was triggered only by "btc"
or "crypto", routing performs no price fetch at all and goes straight to
scraping. -/
theorem C1_combined_crypto (q : String) (o : Oracles)
    (hck : cryptoKw q = true) (hurl : extractUrls q ≠ []) :
    (fallback_query_analysis q).intent = "both" ∧
    (fallback_query_analysis q).ticker = none ∧
    (strContains (pyLower q) "bitcoin" = true →
      (route q (fallback_query_analysis q) o).1.bitcoin_data =
        some (fetch_bitcoin_price o) ∧
      (route q (fallback_query_analysis q) o).2 =
        CallEvent.btcCall ::
          (extractUrls q).map fun u => CallEvent.scrapeCall u q) ∧
    (strContains (pyLower q) "bitcoin" = false →
      (route q (fallback_query_analysis q) o).1.bitcoin_data = none ∧
      (route q (fallback_query_analysis q) o).2 =
        (extractUrls q).map fun u => CallEvent.scrapeCall u q) := by
  have hfa := fallback_crypto_both hck hurl
  cases hue : extractUrls q with
  | nil => exact absurd hue hurl
  | cons x xs =>
    rw [hue] at hfa
    rw [hfa]
    refine ⟨rfl, rfl, ?_, ?_⟩
    · intro hb
      constructor <;>
        simp [route, scrapePart, priceBranch, bitcoinCheck, baseResult, hb]
    · intro hb
      constructor <;>
        simp [route, scrapePart, priceBranch, bitcoinCheck, baseResult, hb]

/-- C1 witness: a combined crypto query that does contain "bitcoin" fetches
the Bitcoin price once, before the scraping calls. -/
theorem C1_combined_crypto_witness :
    (route "bitcoin news https://x.com"
        (fallback_query_analysis "bitcoin news https://x.com") mockOracles).2 =
      CallEvent.btcCall ::
        (extractUrls "bitcoin news https://x.com").map
          (fun u => CallEvent.scrapeCall u "bitcoin news https://x.com") :=
  ((C1_combined_crypto "bitcoin news https://x.com" mockOracles (by decide)
      (by decide)).2.2.1 (by decide)).2

/-- C1 counterexample: the query "btc news https://x.com" becomes a Combined
intent via the crypto keyword "btc", yet the full pipeline (fallback path,
no API key) performs no crypto fetch at all: the crypto slot stays empty and
the only collaborator call is the scrape.  The routing check is
`"bitcoin" in query.lower()`, which "btc" does not satisfy. -/
theorem C1_combined_crypto_cex :
    cryptoKw "btc news https://x.com" = true ∧
    fallback_query_analysis "btc news https://x.com" =
      ⟨"both", none, some "Bitcoin", ["https://x.com"],
       some "btc news https://x.com"⟩ ∧
    (process_query "btc news https://x.com" "" (.error "no key")
        (fun _ => none) mockOracles).1.bitcoin_data.isNone = true ∧
    (process_query "btc news https://x.com" "" (.error "no key")
        (fun _ => none) mockOracles).2 =
      [CallEvent.scrapeCall "https://x.com" "btc news https://x.com"] := by
  decide

/-- C3: routing a WebScrape intent invokes the page-extraction collaborator
once per URL, sequentially in input order, producing one result slot per URL
in the same order; a failure on one URL does not prevent, reorder or drop
the others, as the concrete two-URL failure/success instance shows. -/
theorem C3_webscrape_sequential (urls : List String) (sq q : String)
    (o : Oracles) (h : urls ≠ []) :
    (route q ⟨"web_scrape", none, none, urls, some sq⟩ o).1.scraped_data =
      some (urls.map fun u => o.scrape u sq) ∧
    (route q ⟨"web_scrape", none, none, urls, some sq⟩ o).2 =
      urls.map (fun u => CallEvent.scrapeCall u sq) ∧
    (urls.map fun u => o.scrape u sq).length = urls.length ∧
    (∀ i (hi : i < urls.length),
      (urls.map fun u => o.scrape u sq).get ⟨i, by simpa using hi⟩ =
        o.scrape (urls.get ⟨i, hi⟩) sq) ∧
    (route "q0" ⟨"web_scrape", none, none, ["u1", "u2"], some "s"⟩
        mockScrapeFail).1.scraped_data =
      some [ScrapeResult.err "boom" "u1",
            ScrapeResult.ok "summary" [] "u2" "s"] := by
  cases urls with
  | nil => exact absurd rfl h
  | cons x xs =>
    refine ⟨?_, ?_, by simp, ?_, by decide⟩
    · simp [route, scrapePart, baseResult]
    · simp [route, scrapePart, baseResult]
    · intro i hi
      simp only [List.get_eq_getElem, ← List.map_cons, List.getElem_map]

/-- C3 witness: the two-URL instance where the first scrape fails and the
second succeeds yields exactly the ordered pair of an error slot and a
success slot. -/
theorem C3_webscrape_sequential_witness :
    (route "q0" ⟨"web_scrape", none, none, ["u1", "u2"], some "s"⟩
        mockScrapeFail).1.scraped_data =
      some [ScrapeResult.err "boom" "u1",
            ScrapeResult.ok "summary" [] "u2" "s"] :=
  (C3_webscrape_sequential ["u1", "u2"] "s" "q0" mockScrapeFail
    (by decide)).2.2.2.2

/-- C8: URL extraction returns exactly the substrings of the raw query
matching `https?://` followed by non-whitespace: each returned string
matches the pattern, the returned strings occur in the query disjointly and
in order (the query decomposes as separators interleaved with the matches),
and duplicates are kept — a URL mentioned twice is extracted twice and, via
routing, yields two scrape result slots. -/
theorem C8_url_extraction :
    (∀ q : String, ∃ seps : List (List Char),
      seps.length = (extractUrls q).length + 1 ∧
      joinG seps ((extractUrls q).map String.data) = q.data) ∧
    (∀ (q u : String), u ∈ extractUrls q → urlPattern u = true) ∧
    extractUrls "see https://a.com and https://a.com too" =
      ["https://a.com", "https://a.com"] ∧
    extractUrls "nothing http:// here" = [] ∧
    (route "see https://a.com and https://a.com too"
        (fallback_query_analysis "see https://a.com and https://a.com too")
        mockOracles).1.scraped_data =
      some [ScrapeResult.ok "summary" ["point"] "https://a.com"
              "see https://a.com and https://a.com too",
            ScrapeResult.ok "summary" ["point"] "https://a.com"
              "see https://a.com and https://a.com too"] := by
  refine ⟨?_, ?_, by decide, by decide, by decide⟩
  · intro q
    obtain ⟨seps, hlen, hjoin⟩ := findUrlsAux_decomp q.data.length q.data le_rfl
    refine ⟨seps, ?_, ?_⟩
    · simpa [extractUrls] using hlen
    · unfold extractUrls
      rw [List.map_map]
      have hid : (String.data ∘ String.mk) = id := rfl
      rw [hid, List.map_id]
      exact hjoin
  · exact fun q => extractUrls_wellformed q

/-- C8 witness: a concrete extracted URL matches the URL pattern. -/
theorem C8_url_extraction_witness : urlPattern "https://a.com" = true :=
  C8_url_extraction.2.1 "see https://a.com and https://a.com too"
    "https://a.com" (by decide)

/-- The six possible shapes of a fallback analysis, with a nonempty ticker
in the stock cases and pattern-matching URLs in the web-scrape case. -/
theorem fallback_shape (q : String) :
    fallback_query_analysis q = ⟨"bitcoin_price", none, some "Bitcoin", [], none⟩ ∨
    (∃ x xs, fallback_query_analysis q =
      ⟨"both", none, some "Bitcoin", x :: xs, some q⟩) ∨
    (∃ t, t ≠ "" ∧ fallback_query_analysis q =
      ⟨"stock_price", some t, none, [], none⟩) ∨
    (∃ t x xs, t ≠ "" ∧ fallback_query_analysis q =
      ⟨"both", some t, none, x :: xs, some q⟩) ∨
    (∃ x xs, (x :: xs : List String).all urlPattern = true ∧
      fallback_query_analysis q = ⟨"web_scrape", none, none, x :: xs, some q⟩) ∨
    fallback_query_analysis q = ⟨"unknown", none, none, [], some q⟩ := by
  cases hck : cryptoKw q with
  | true =>
    cases hue : extractUrls q with
    | nil => left; simp [fallback_query_analysis, hck, hue]
    | cons x xs =>
      right; left
      exact ⟨x, xs, by simp [fallback_query_analysis, hck, hue]⟩
  | false =>
    cases hft : find_ticker_from_text q with
    | some t =>
      have ht := find_ticker_ne_empty hft
      cases hue : extractUrls q with
      | nil =>
        right; right; left
        exact ⟨t, ht, by simp [fallback_query_analysis, hck, hft, hue]⟩
      | cons x xs =>
        right; right; right; left
        exact ⟨t, x, xs, ht, by simp [fallback_query_analysis, hck, hft, hue]⟩
    | none =>
      cases hue : extractUrls q with
      | nil =>
        right; right; right; right; right
        simp [fallback_query_analysis, hck, hft, hue]
      | cons x xs =>
        right; right; right; right; left
        refine ⟨x, xs, ?_, by simp [fallback_query_analysis, hck, hft, hue]⟩
        rw [← hue]
        exact List.all_eq_true.mpr fun u hu => extractUrls_wellformed q u hu

/-- C6 (amended): every Intent produced by the deterministic fallback path
satisfies the data-model invariants: a non-unknown intent carries a nonempty
ticker, the crypto asset, or a nonempty URL list; a combined intent never
has both price targets populated; a web-scrape intent's URLs are nonempty
and all match the URL pattern.  (The language-model path returns the parsed
reply unvalidated — see the counterexample.) -/
theorem C6_invariants_fallback (q : String) :
    intentInvariant (fallback_query_analysis q) = true := by
  rcases fallback_shape q with h | ⟨x, xs, h⟩ | ⟨t, ht, h⟩ | ⟨t, x, xs, ht, h⟩ |
    ⟨x, xs, hall, h⟩ | h <;> rw [h]
  · decide
  · simp [intentInvariant, tickerPopulated, assetPopulated]
  · simp [intentInvariant, tickerPopulated, assetPopulated, ht]
  · simp [intentInvariant, tickerPopulated, assetPopulated, ht]
  · simp [intentInvariant, tickerPopulated, assetPopulated, hall]
  · rfl

/-- C6 counterexample: with an API key configured, a Gemini reply that
parses to an analysis with a malformed URL is returned by the classifier
verbatim — the code performs no validation — and that Intent violates the
data-model invariants. -/
theorem C6_invariants_cex :
    analyze_query_with_gemini "scrape the page" "key"
        (.ok "\x7b\"intent\": \"web_scrape\", \"urls\": [\"notaurl\"]\x7d")
        (fun _ => some ⟨"web_scrape", none, none, ["notaurl"], some "x"⟩) =
      ⟨"web_scrape", none, none, ["notaurl"], some "x"⟩ ∧
    intentInvariant ⟨"web_scrape", none, none, ["notaurl"], some "x"⟩ = false := by
  decide

/-- C7 (amended): the classifier never raises; a missing API key, an
exception from the language-model collaborator, or a reply whose JSON fails
to parse (after fence stripping) each silently yield the deterministic
rule-based result, whose intent is always a valid variant.  (A successfully
parsed reply, however, is returned unvalidated and need not carry a valid
intent tag — see the counterexample.) -/
theorem C7_classifier_degradation (q apiKey : String)
    (llm : Except String String) (jparse : String → Option Analysis) :
    (apiKey = "" →
      analyze_query_with_gemini q apiKey llm jparse = fallback_query_analysis q) ∧
    (∀ e, llm = .error e →
      analyze_query_with_gemini q apiKey llm jparse = fallback_query_analysis q) ∧
    (∀ t, llm = .ok t → jparse (stripFences (pyStrip t)) = none →
      analyze_query_with_gemini q apiKey llm jparse = fallback_query_analysis q) ∧
    validVariant (fallback_query_analysis q).intent = true := by
  refine ⟨?_, ?_, ?_, ?_⟩
  · intro h
    simp [analyze_query_with_gemini, h]
  · intro e h
    subst h
    by_cases hk : apiKey = "" <;> simp [analyze_query_with_gemini, hk]
  · intro t h hp
    subst h
    by_cases hk : apiKey = "" <;> simp [analyze_query_with_gemini, hk, hp]
  · rcases fallback_shape q with h | ⟨x, xs, h⟩ | ⟨t, ht, h⟩ | ⟨t, x, xs, ht, h⟩ |
      ⟨x, xs, hall, h⟩ | h <;> rw [h] <;> rfl

/-- C7 witness: the degradation applied concretely — a collaborator
exception with a configured key yields exactly the rule-based result. -/
theorem C7_classifier_degradation_witness :
    analyze_query_with_gemini "hello there" "key" (.error "timeout")
        (fun _ => none) =
      fallback_query_analysis "hello there" :=
  (C7_classifier_degradation "hello there" "key" (.error "timeout")
    (fun _ => none)).2.1 "timeout" rfl

/-- C7 counterexample: a successfully parsed Gemini reply is returned as-is,
so the classifier can terminate with an intent tag that is not one of the
five valid variants. -/
theorem C7_classifier_degradation_cex :
    analyze_query_with_gemini "q" "key" (.ok "\x7b\"intent\": \"banana\"\x7d")
        (fun _ => some ⟨"banana", none, none, [], none⟩) =
      ⟨"banana", none, none, [], none⟩ ∧
    validVariant "banana" = false := by
  decide

/-- Erase the timestamp of a quote slot. -/
def eraseTsStock (r : Except String StockPayload) : Except String StockPayload :=
  r.map fun p => { p with timestamp := "" }

/-- Erase the timestamp of a crypto slot. -/
def eraseTsBtc (r : Except String BtcPayload) : Except String BtcPayload :=
  r.map fun p => { p with timestamp := "" }

/-- Erase the timestamp fields of an aggregated result (the quote and crypto
payloads are the only slots carrying timestamps). -/
def eraseTs (ar : AggregatedResult) : AggregatedResult :=
  { ar with stock_data := ar.stock_data.map eraseTsStock,
            bitcoin_data := ar.bitcoin_data.map eraseTsBtc }

/-- The wall clock reaches a quote payload only through its timestamp field:
erasing it is the same as fetching at a fixed clock. -/
theorem fetch_stock_erase (o : Oracles) (ticker : String) :
    eraseTsStock (fetch_stock_price o ticker) =
      fetch_stock_price { o with now := "" } ticker := by
  cases hc : o.chart ticker with
  | error e => simp [fetch_stock_price, hc, eraseTsStock, Except.map]
  | ok meta =>
    cases hq : o.quote ticker with
    | error e => simp [fetch_stock_price, hc, hq, eraseTsStock, Except.map]
    | ok qi => simp [fetch_stock_price, hc, hq, eraseTsStock, Except.map]

/-- The wall clock reaches a crypto payload only through its timestamp
field. -/
theorem fetch_btc_erase (o : Oracles) :
    eraseTsBtc (fetch_bitcoin_price o) =
      fetch_bitcoin_price { o with now := "" } := by
  cases hb : o.btcResp with
  | error e => simp [fetch_bitcoin_price, hb, eraseTsBtc, Except.map]
  | ok info => simp [fetch_bitcoin_price, hb, eraseTsBtc, Except.map]

/-- C9: routing is deterministic modulo timestamps: running the dispatch
twice with the same intent and the same collaborator responses but different
clock readings yields aggregated results that agree on every field except
the timestamp fields of the quote and crypto payloads, and the identical
sequence of collaborator invocations. -/
theorem C9_route_deterministic (q : String) (a : Analysis) (o : Oracles)
    (t1 t2 : String) :
    eraseTs (route q a { o with now := t1 }).1 =
      eraseTs (route q a { o with now := t2 }).1 ∧
    (route q a { o with now := t1 }).2 = (route q a { o with now := t2 }).2 := by
  have hstock : ∀ (t tk : String),
      eraseTsStock (fetch_stock_price { o with now := t } tk) =
        fetch_stock_price { o with now := "" } tk := by
    intro t tk
    simpa using fetch_stock_erase { o with now := t } tk
  have hbtc : ∀ t : String,
      eraseTsBtc (fetch_bitcoin_price { o with now := t }) =
        fetch_bitcoin_price { o with now := "" } := by
    intro t
    simpa using fetch_btc_erase { o with now := t }
  unfold route scrapePart priceBranch bitcoinCheck baseResult
  repeat' split
  all_goals simp [eraseTs, hstock, hbtc]
